import Mathlib

/-!
Verification development for the Monarch MCP login-setup script
(`login_setup.py`).  The script's core logic is embedded shallowly:
strings are `List Char`, the pure token normalizer `_normalize_token`
becomes `normalizeToken`, the connection test `_test_connection`
becomes `testConnection` over a Python-value model, and the
orchestrator `main` becomes `mainRun` over an explicit environment of
collaborator results, producing a trace of external calls and a final
outcome.
-/

namespace MonarchLogin

/-! ### Character helpers

Python's `str.strip()`, `str.lower()`, `str.startswith` and the `\b`,
`\s` regex classes, modelled for the ASCII range (all inputs exercised
by the theorems are ASCII). -/

/-- Single-quote character (written via `Char.ofNat` to keep literals simple). -/
def sqC : Char := Char.ofNat 39

/-- Double-quote character. -/
def dqC : Char := Char.ofNat 34

/-- Left curly brace. -/
def lbrace : Char := Char.ofNat 123

/-- Right curly brace. -/
def rbrace : Char := Char.ofNat 125

/-- Backslash character. -/
def bslashC : Char := Char.ofNat 92

/-- Python whitespace (`\s`, `str.strip`): space, tab, LF, VT, FF, CR. -/
def isSpaceC (c : Char) : Bool :=
  c = ' ' || c = Char.ofNat 9 || c = Char.ofNat 10 || c = Char.ofNat 11 ||
    c = Char.ofNat 12 || c = Char.ofNat 13

/-- Quote characters stripped by `.strip("\x22\x27")` in the source. -/
def isQuoteC (c : Char) : Bool := c = dqC || c = sqC

/-- Python regex `\w` (ASCII): letters, digits, underscore. -/
def isWordC (c : Char) : Bool :=
  ('a' ≤ c && c ≤ 'z') || ('A' ≤ c && c ≤ 'Z') || ('0' ≤ c && c ≤ '9') || c = '_'

/-- ASCII lower-casing of one character, as in Python `str.lower()`. -/
def lowerC (c : Char) : Char :=
  if 65 ≤ c.toNat && c.toNat ≤ 90 then Char.ofNat (c.toNat + 32) else c

/-- `str.lower()` over a whole string. -/
def toLowerL (l : List Char) : List Char := l.map lowerC

/-- `str.strip()`: drop whitespace from both ends. -/
def trimL (l : List Char) : List Char :=
  ((l.dropWhile isSpaceC).reverse.dropWhile isSpaceC).reverse

/-- `str.strip("\x22\x27")`: drop quote characters from both ends. -/
def stripQuotes (l : List Char) : List Char :=
  ((l.dropWhile isQuoteC).reverse.dropWhile isQuoteC).reverse

/-- `str.startswith`, character by character. -/
def startsWithL : List Char → List Char → Bool
  | [], _ => true
  | _ :: _, [] => false
  | p :: ps, c :: cs => p = c && startsWithL ps cs

/-- `str.endswith`. -/
def endsWithL (p l : List Char) : Bool := startsWithL p.reverse l.reverse

/-- Python `needle in hay` substring test. -/
def containsL (needle : List Char) : List Char → Bool
  | [] => needle.isEmpty
  | c :: cs => startsWithL needle (c :: cs) || containsL needle cs

/-! ### The regex searches

`re.search(r"(?i)\bbearer\s+([^\s]+)", s)` and the analogous `token`
search: scan left to right for the first position with a word boundary
before it where the keyword matches case-insensitively, followed by at
least one whitespace character and then a maximal non-whitespace run
(the capture group). -/

/-- Case-insensitive literal match at the head; returns the rest on success. -/
def matchCI : List Char → List Char → Option (List Char)
  | [], l => some l
  | _ :: _, [] => none
  | p :: ps, c :: cs => if lowerC c = p then matchCI ps cs else none

/-- After the keyword: `\s+([^\s]+)` — at least one space, then the
maximal non-space run is the captured group. -/
def groupAfter : List Char → Option (List Char)
  | [] => none
  | c :: cs =>
    if isSpaceC c then
      match cs.dropWhile isSpaceC with
      | [] => none
      | d :: ds => some ((d :: ds).takeWhile (fun x => !(isSpaceC x)))
    else none

/-- `\b` before a pattern starting with a word character: holds at the
string start or after a non-word character. -/
def boundaryOK : Option Char → Bool
  | none => true
  | some c => !(isWordC c)

/-- Leftmost-match scan: at each position with a boundary, try keyword
plus `\s+([^\s]+)`; on failure move one character right (Python
`re.search` semantics for this pattern). -/
def searchKW (kw : List Char) : Option Char → List Char → Option (List Char)
  | _, [] => none
  | prev, c :: cs =>
    if boundaryOK prev then
      match matchCI kw (c :: cs) with
      | some rest =>
        match groupAfter rest with
        | some g => some g
        | none => searchKW kw (some c) cs
      | none => searchKW kw (some c) cs
    else searchKW kw (some c) cs

/-- The keyword of the first regex in `_normalize_token`. -/
def bearerKW : List Char := ['b', 'e', 'a', 'r', 'e', 'r']

/-- The keyword of the second regex in `_normalize_token`. -/
def tokenKW : List Char := ['t', 'o', 'k', 'e', 'n']

/-- `re.search(r"(?i)\bbearer\s+([^\s]+)", s)`, returning the group. -/
def bearerSearch (l : List Char) : Option (List Char) := searchKW bearerKW none l

/-- `re.search(r"(?i)\btoken\s+([^\s]+)", s)`, returning the group. -/
def tokenSearch (l : List Char) : Option (List Char) := searchKW tokenKW none l

/-! ### JSON model

`_normalize_token` calls the Python stdlib `json.loads` (an external
collaborator, not repository code) on inputs that start with a left
brace and end with a right brace.  We model the fragment it needs:
flat objects with escape-free string keys, whose values are
escape-free strings or bare scalar tokens (numbers, `true`, `false`,
`null`); only string values matter downstream because the source
checks `isinstance(val, str)`.  Inputs outside this fragment (nested
containers, escape sequences) are not exercised by any theorem
below. -/

/-- A modelled JSON value: a string, or anything that is not a string. -/
inductive JVal
  | jstr (s : List Char)
  | jother
deriving DecidableEq, Repr

/-- Body of a JSON string literal after the opening quote: collect
characters up to the closing quote; escape sequences are outside the
modelled fragment. -/
def takeStr : List Char → Option (List Char × List Char)
  | [] => none
  | c :: cs =>
    if c = dqC then some ([], cs)
    else if c = bslashC then none
    else
      match takeStr cs with
      | some (s, r) => some (c :: s, r)
      | none => none

/-- A JSON string literal. -/
def parseStrLit : List Char → Option (List Char × List Char)
  | [] => none
  | c :: cs => if c = dqC then takeStr cs else none

/-- Characters of a bare JSON scalar token. -/
def isBareC (c : Char) : Bool :=
  ('a' ≤ c && c ≤ 'z') || ('A' ≤ c && c ≤ 'Z') || ('0' ≤ c && c ≤ '9') ||
    c = '-' || c = '+' || c = '.'

/-- Is a bare token a valid JSON scalar (number, `true`, `false`, `null`)? -/
def isScalarTok (t : List Char) : Bool :=
  t = "true".data || t = "false".data || t = "null".data ||
    (!t.isEmpty && t.all (fun c => ('0' ≤ c && c ≤ '9')))

/-- A JSON value in the modelled fragment. -/
def parseJVal (l : List Char) : Option (JVal × List Char) :=
  match parseStrLit l with
  | some (s, r) => some (.jstr s, r)
  | none =>
    match l.takeWhile isBareC with
    | [] => none
    | t =>
      if isScalarTok t then some (.jother, l.drop t.length) else none

/-- Leading JSON whitespace. -/
def skipWS (l : List Char) : List Char := l.dropWhile isSpaceC

/-- One `"key": value` pair. -/
def parsePair (l : List Char) : Option ((List Char × JVal) × List Char) :=
  match parseStrLit (skipWS l) with
  | none => none
  | some (k, r) =>
    match skipWS r with
    | [] => none
    | c :: r2 =>
      if c = ':' then
        match parseJVal (skipWS r2) with
        | some (v, r3) => some ((k, v), r3)
        | none => none
      else none

/-- Remaining `, "key": value` pairs up to the closing brace
(fuel-driven; the fuel passed in always suffices). -/
def parseMore : Nat → List Char → Option (List (List Char × JVal) × List Char)
  | 0, _ => none
  | Nat.succ fuel, l =>
    match skipWS l with
    | [] => none
    | c :: r =>
      if c = ',' then
        match parsePair r with
        | some (p, r2) =>
          match parseMore fuel r2 with
          | some (ps, r3) => some (p :: ps, r3)
          | none => none
        | none => none
      else if c = rbrace then some ([], r)
      else none

/-- `json.loads` on the modelled fragment: a whole document that is a
flat object, with nothing but whitespace after it. -/
def jsonParse (l : List Char) : Option (List (List Char × JVal)) :=
  match skipWS l with
  | [] => none
  | c :: r =>
    if c = lbrace then
      match skipWS r with
      | [] => none
      | d :: r2 =>
        if d = rbrace then (if skipWS r2 = [] then some [] else none)
        else
          match parsePair r with
          | some (p, r3) =>
            match parseMore (r3.length + 1) r3 with
            | some (ps, r4) => if skipWS r4 = [] then some (p :: ps) else none
            | none => none
          | none => none
    else none

/-- `obj.get(key)` for the parsed object; JSON objects with duplicate
keys keep the last occurrence, as `json.loads` does. -/
def jGet (obj : List (List Char × JVal)) (k : List Char) : Option JVal :=
  ((obj.filter (fun p => p.1 == k)).getLast?).map Prod.snd

/-- The key `"token"`. -/
def kTokenKey : List Char := "token".data

/-- The key `"access_token"`. -/
def kAccessKey : List Char := "access_token".data

/-- The key `"accessToken"`. -/
def kAccessCamel : List Char := "accessToken".data

/-- `isinstance(val, str) and val.strip()`: a usable value is a string
that is non-blank; the stripped form replaces the working string. -/
def usableVal : Option JVal → Option (List Char)
  | some (.jstr w) => if trimL w = [] then none else some (trimL w)
  | _ => none

/-- The key loop of `_normalize_token`: try `token`, `access_token`,
`accessToken` in order, stopping at the first usable string value. -/
def extractKey (obj : List (List Char × JVal)) : Option (List Char) :=
  match usableVal (jGet obj kTokenKey) with
  | some v => some v
  | none =>
    match usableVal (jGet obj kAccessKey) with
    | some v => some v
    | none => usableVal (jGet obj kAccessCamel)

/-! ### `_normalize_token` -/

/-- `s.startswith(lbrace) and s.endswith(rbrace)`. -/
def jsonShapeB (s : List Char) : Bool :=
  startsWithL [lbrace] s && endsWithL [rbrace] s

/-- The JSON step of `_normalize_token`: on a JSON-shaped string,
attempt to parse and substitute a usable key value; parse failure or
no usable key leaves the string unchanged. -/
def jsonStep (s : List Char) : List Char :=
  if jsonShapeB s then
    match jsonParse s with
    | some obj =>
      match extractKey obj with
      | some v => v
      | none => s
    | none => s
  else s

/-- The literal `"authorization"`. -/
def authLit : List Char := "authorization".data

/-- The prefix-stripping loop: if the lower-cased string starts with
`bearer ` or `token `, drop that prefix (first match only) and strip. -/
def stripHdr (s : List Char) : List Char :=
  if startsWithL ("bearer ".data) (toLowerL s) then trimL (s.drop 7)
  else if startsWithL ("token ".data) (toLowerL s) then trimL (s.drop 6)
  else s

/-- `_normalize_token` after the trim and JSON steps: the two regex
searches in priority order, the `authorization` guard on the second,
then prefix stripping and the final trim-and-strip-quotes. -/
def afterJson (s : List Char) : List Char :=
  match bearerSearch s with
  | some g => stripQuotes (trimL g)
  | none =>
    match tokenSearch s with
    | some g =>
      if containsL authLit (toLowerL s) then stripQuotes (trimL g)
      else stripQuotes (trimL (stripHdr s))
    | none => stripQuotes (trimL (stripHdr s))

/-- `_normalize_token(raw)` from `login_setup.py` (the leading
underscore is dropped for Lean). -/
def normalizeToken (raw : List Char) : List Char :=
  let s := trimL raw
  if s = [] then [] else afterJson (jsonStep s)

/-! ### `_test_connection`

The response of `mm.get_accounts()` is an arbitrary Python value; the
source checks `if not accounts or not isinstance(accounts, dict)` and
then returns `len(accounts.get("accounts", []))`.  `len` raises
`TypeError` on unsized values, which propagates like the explicit
`RuntimeError`. -/

/-- A Python value as far as `_test_connection` can observe it. -/
inductive Value
  | vnone
  | vbool (b : Bool)
  | vint (n : Int)
  | vstr (s : List Char)
  | vlist (elems : List Value)
  | vdict (entries : List (List Char × Value))

/-- Python truthiness for `Value`. -/
def truthy : Value → Bool
  | .vnone => false
  | .vbool b => b
  | .vint n => decide (n ≠ 0)
  | .vstr s => !s.isEmpty
  | .vlist l => !l.isEmpty
  | .vdict d => !d.isEmpty

/-- `isinstance(x, dict)`. -/
def isDictV : Value → Bool
  | .vdict _ => true
  | _ => false

/-- The key `"accounts"`. -/
def accountsKey : List Char := "accounts".data

/-- `d.get(k, dflt)` (keys of a real dict are unique; first match). -/
def dictGet (entries : List (List Char × Value)) (k : List Char) (dflt : Value) : Value :=
  match entries.filter (fun p => p.1 == k) with
  | [] => dflt
  | p :: _ => p.2

/-- `len(x)`: defined for strings, lists and dicts; `none` models the
`TypeError` raised on other values. -/
def pyLen : Value → Option Nat
  | .vstr s => some s.length
  | .vlist l => some l.length
  | .vdict d => some d.length
  | _ => none

/-- `len(accounts.get("accounts", []))` for a response value. -/
def accountCountOf : Value → Option Nat
  | .vdict d => pyLen (dictGet d accountsKey (.vlist []))
  | _ => none

/-- `_test_connection` applied to the `get_accounts()` response:
`error` models a raised exception (explicit `RuntimeError` or `len`'s
`TypeError`), `ok n` the returned account count. -/
def testConnection (resp : Value) : Except (List Char) Nat :=
  if truthy resp && isDictV resp then
    match accountCountOf resp with
    | some n => .ok n
    | none => .error ("TypeError: object has no len".data)
  else .error ("Unexpected response from get_accounts()".data)

/-- The success shape that `_test_connection` accepts: a truthy dict
whose `accounts` entry (defaulting to the empty list) has a length. -/
def expectedShape (resp : Value) : Bool :=
  truthy resp && isDictV resp && (accountCountOf resp).isSome

/-- `Except.isOk`. -/
def exOk : Except (List Char) α → Bool
  | .ok _ => true
  | .error _ => false

/-! ### The orchestrator `main`

`main` is embedded as a function of an environment that fixes every
collaborator result and user input for one run: `load_dotenv`,
`secure_session.delete_token`, the interactive answers, the client's
`login` / `multi_factor_authenticate` / `save_session` results, the
`get_accounts` response, the presence of the local `.mm` cache, and
`secure_session.save_authenticated_session`.  The run produces the
ordered trace of external calls it made and a terminal outcome.
Console prints carry no state and are not modelled; the version-check
block (lines 117-121) catches its own exceptions and always proceeds,
so it contributes nothing observable.  The `shutil.rmtree` failure is
swallowed by a bare `except` in the source, so its result is not part
of the environment either. -/

/-- The method chosen at the `Choose (1/2)` prompt. -/
inductive AuthMethod
  | password
  | token
deriving DecidableEq, Repr

/-- Result of `mm.login(...)`: success, the `RequireMFAException`
control signal, or any other exception. -/
inductive LoginRes
  | ok
  | requireMFA
  | fail (e : List Char)
deriving DecidableEq, Repr

/-- External calls made during a run, in order. -/
inductive Event
  | deleteTokenCall
  | constructClient (withToken : Bool)
  | loginCall
  | mfaCall
  | saveSessionCall
  | getAccountsCall
  | saveAuthSessionCall
  | rmtreeCall
deriving DecidableEq, Repr

/-- Terminal outcome of one run of `main`.  `uncaughtErr` means an
exception escaped `main` itself; `caughtTop` means the top-level
`except Exception` block reported it; the remaining constructors are
the `return` paths, with `completed` recording whether keyring
persistence succeeded and the account count reported. -/
inductive Outcome
  | uncaughtErr (e : List Char)
  | cancelled
  | noToken
  | connFailedToken
  | connFailedPassword
  | caughtTop (e : List Char)
  | completed (persisted : Bool) (accountCount : Nat)
deriving DecidableEq, Repr

/-- One run's worth of collaborator results and user inputs. -/
structure Env where
  loadDotenvR : Except (List Char) Unit
  deleteTokenR : Except (List Char) Unit
  hasMfaInput : List Char
  proceedInput : List Char
  choiceInput : List Char
  rawTokenInput : List Char
  loginR : LoginRes
  mfaR : Except (List Char) Unit
  saveSessionR : Except (List Char) Unit
  getAccountsR : Except (List Char) Value
  mmDirExists : Bool
  saveAuthR : Except (List Char) Unit

/-- Is an answer `y`/`yes` after strip and lower-case? -/
def yesAns (l : List Char) : Bool :=
  toLowerL (trimL l) == ['y'] || toLowerL (trimL l) == ['y', 'e', 's']

/-- The run proceeds past the MFA advisory iff the user claims MFA or
confirms proceeding without it. -/
def proceedCheck (env : Env) : Bool :=
  yesAns env.hasMfaInput || yesAns env.proceedInput

/-- Inputs that select the token method in `_choose_auth_method`. -/
def tokenChoiceStrs : List (List Char) :=
  [['2'], "token".data, "sso".data, "apple".data, "google".data]

/-- `_choose_auth_method`: default is password. -/
def chooseAuthMethod (raw : List Char) : AuthMethod :=
  if toLowerL (trimL raw) ∈ tokenChoiceStrs then .token else .password

/-- The password branch of `main` (lines 151-170): construct a client,
try `login`; on `RequireMFAException` do the multi-factor exchange on
the same client and then the explicit `mm.save_session()`.  An
`error` result propagates to the top-level handler. -/
def passwordFlow (env : Env) : List Event × Except (List Char) Unit :=
  match env.loginR with
  | .ok => ([.constructClient false, .loginCall], .ok ())
  | .fail e => ([.constructClient false, .loginCall], .error e)
  | .requireMFA =>
    match env.mfaR with
    | .error e => ([.constructClient false, .loginCall, .mfaCall], .error e)
    | .ok _ =>
      match env.saveSessionR with
      | .error e =>
        ([.constructClient false, .loginCall, .mfaCall, .saveSessionCall], .error e)
      | .ok _ =>
        ([.constructClient false, .loginCall, .mfaCall, .saveSessionCall], .ok ())

/-- Result of the token branch: no usable token, or a client built. -/
inductive TokenRes
  | noToken
  | built
deriving DecidableEq, Repr

/-- The token branch of `main` (lines 172-179): normalize the pasted
text; an empty result returns before any client is constructed. -/
def tokenFlow (env : Env) : List Event × TokenRes :=
  if normalizeToken env.rawTokenInput = [] then ([], .noToken)
  else ([.constructClient true], .built)

/-- The connection test (lines 182-188): one `get_accounts()` call; an
exception from the call or from `_test_connection` is the failure
case. -/
def validateStep (env : Env) : List Event × Except (List Char) Nat :=
  match env.getAccountsR with
  | .error e => ([.getAccountsCall], .error e)
  | .ok v => ([.getAccountsCall], testConnection v)

/-- The keyring save (lines 209-217): failure is reported but the run
continues. -/
def publishStep (env : Env) : List Event × Bool :=
  match env.saveAuthR with
  | .ok _ => ([.saveAuthSessionCall], true)
  | .error _ => ([.saveAuthSessionCall], false)

/-- Password-path cleanup on validation failure (lines 198-204). -/
def cleanupEvents (env : Env) : List Event :=
  if env.mmDirExists then [.rmtreeCall] else []

/-- `main` from the connection test onward, given the events so far
and the method used. -/
def afterAuth (env : Env) (evs : List Event) (m : AuthMethod) : List Event × Outcome :=
  match validateStep env with
  | (evV, .error _) =>
    match m with
    | .token => (evs ++ evV, .connFailedToken)
    | .password => (evs ++ evV ++ cleanupEvents env, .connFailedPassword)
  | (evV, .ok n) =>
    match publishStep env with
    | (evP, okP) => (evs ++ evV ++ evP, .completed okP n)

/-- The body of `main`'s top-level `try` (lines 123-224), together
with its `except Exception` handler (lines 226-229). -/
def mainTry (env : Env) : List Event × Outcome :=
  match env.deleteTokenR with
  | .error e => ([.deleteTokenCall], .caughtTop e)
  | .ok _ =>
    if proceedCheck env then
      match chooseAuthMethod env.choiceInput with
      | .password =>
        match passwordFlow env with
        | (evA, .error e) => (.deleteTokenCall :: evA, .caughtTop e)
        | (evA, .ok _) => afterAuth env (.deleteTokenCall :: evA) .password
      | .token =>
        match tokenFlow env with
        | (evA, .noToken) => (.deleteTokenCall :: evA, .noToken)
        | (evA, .built) => afterAuth env (.deleteTokenCall :: evA) .token
    else ([.deleteTokenCall], .cancelled)

/-- `main` (line 108 onward): `load_dotenv()` runs before the `try`
block, so an exception there escapes `main` uncaught. -/
def mainRun (env : Env) : List Event × Outcome :=
  match env.loadDotenvR with
  | .error e => ([], .uncaughtErr e)
  | .ok _ => mainTry env

/-! ### Vocabulary used by the claim statements -/

/-- A string with no whitespace character at all. -/
def noSpaceB (l : List Char) : Bool := l.all (fun c => !(isSpaceC c))

/-- Events that constitute an authentication attempt: the login call,
the multi-factor exchange, and client construction (with or without a
token). -/
def isAuthEvent : Event → Bool
  | .loginCall => true
  | .mfaCall => true
  | .constructClient _ => true
  | _ => false

/-- Scans a trace and checks that every authentication event is
preceded by a `deleteTokenCall`; the Boolean accumulator records
whether the stored session has been cleared so far. -/
def clearedBefore : Bool → List Event → Bool
  | _, [] => true
  | cleared, e :: rest =>
    (if isAuthEvent e then cleared else true) &&
      clearedBefore (cleared || e == Event.deleteTokenCall) rest

/-! ### Concrete inputs and environments used by counterexamples and
witnesses -/

/-- `Bearer abc Bearer xyz123`: contains `Bearer xyz123`, but the
leftmost regex match wins. -/
def c3in : List Char := "Bearer abc Bearer xyz123".data

/-- A pasted header line whose only Bearer value is `xyz123`. -/
def c3win : List Char := "Authorization: Bearer xyz123".data

/-- The empty JSON object `\x7b\x7d`. -/
def c4inA : List Char := [lbrace, rbrace]

/-- `\x27Token abc\x27`: a quoted `Token `-prefixed string. -/
def c4inB : List Char := [sqC] ++ "Token abc".data ++ [sqC]

/-- Same shape as `c4inB`, used for the idempotence counterexample. -/
def c5in : List Char := [sqC] ++ "Token abc".data ++ [sqC]

/-- JSON object with both `token` and `access_token` keys. -/
def c6inA : List Char :=
  "\x7b\"token\":\"a\",\"access_token\":\"b\"\x7d".data

/-- JSON object whose `access_token` value carries surrounding quotes. -/
def c6inB : List Char :=
  "\x7b\"access_token\":\"\x27b\x27\"\x7d".data

/-- JSON object with only a clean `access_token` value. -/
def c6win : List Char := "\x7b\"access_token\":\"tok123\"\x7d".data

/-- JSON object whose `token` entry is present but unusable (blank
string), alongside a clean `access_token` value. -/
def c6win2 : List Char := "\x7b\"token\":\"\",\"access_token\":\"tok456\"\x7d".data

/-- A well-formed `get_accounts()` response with two accounts. -/
def acctsTwo : Value := .vdict [(accountsKey, .vlist [.vint 1, .vint 2])]

/-- Password run whose first login succeeds directly (no MFA). -/
def envC1Direct : Env :=
  ⟨.ok (), .ok (), "y".data, [], "1".data, [], .ok, .ok (), .ok (),
    .ok acctsTwo, false, .ok ()⟩

/-- Password run that goes through the MFA exchange. -/
def envC1Mfa : Env :=
  ⟨.ok (), .ok (), "y".data, [], "1".data, [], .requireMFA, .ok (), .ok (),
    .ok acctsTwo, false, .ok ()⟩

/-- Run whose `load_dotenv()` raises. -/
def envC2Fail : Env :=
  ⟨.error "boom".data, .ok (), "y".data, [], "1".data, [], .ok, .ok (),
    .ok (), .ok acctsTwo, false, .ok ()⟩

/-- Run whose `load_dotenv()` succeeds (later steps arbitrary). -/
def envC2Ok : Env :=
  ⟨.ok (), .error "keyring down".data, "y".data, [], "1".data, [], .ok,
    .ok (), .ok (), .ok acctsTwo, false, .ok ()⟩

/-- Token run whose pasted text normalizes to the empty string. -/
def envC8 : Env :=
  ⟨.ok (), .ok (), "y".data, [], "2".data, "   ".data, .ok, .ok (), .ok (),
    .ok acctsTwo, false, .ok ()⟩

/-- Token run that authenticates and validates but whose keyring save
raises. -/
def envC9 : Env :=
  ⟨.ok (), .ok (), "n".data, "yes".data, "sso".data, "Bearer abc".data,
    .ok, .ok (), .ok (), .ok acctsTwo, false, .error "keyring denied".data⟩

/-! ### General lemmas about the string helpers -/

theorem dropWhile_head_false {α} (p : α → Bool) (l : List α) {c : α}
    (h : (l.dropWhile p).head? = some c) : p c = false := by
  induction l with
  | nil => simp [List.dropWhile] at h
  | cons a t ih =>
    by_cases hp : p a
    · rw [List.dropWhile_cons_of_pos hp] at h
      exact ih h
    · rw [List.dropWhile_cons_of_neg hp] at h
      simp only [List.head?_cons, Option.some.injEq] at h
      rw [← h]
      exact Bool.not_eq_true _ ▸ hp

theorem dropWhile_eq_self_of_head {α} {p : α → Bool} {l : List α}
    (h : ∀ c, l.head? = some c → p c = false) : l.dropWhile p = l := by
  cases l with
  | nil => rfl
  | cons a t =>
    apply List.dropWhile_cons_of_neg
    simp [h a rfl]

theorem dropWhile_idem {α} (p : α → Bool) (l : List α) :
    (l.dropWhile p).dropWhile p = l.dropWhile p :=
  dropWhile_eq_self_of_head (fun _ h => dropWhile_head_false p l h)

theorem getLast?_dropWhile {α} (p : α → Bool) (l : List α)
    (h : l.dropWhile p ≠ []) : (l.dropWhile p).getLast? = l.getLast? := by
  induction l with
  | nil => simp [List.dropWhile] at h
  | cons a t ih =>
    by_cases hp : p a
    · rw [List.dropWhile_cons_of_pos hp] at h ⊢
      rw [ih h]
      have ht : t ≠ [] := by
        intro he
        rw [he] at h
        simp [List.dropWhile] at h
      cases t with
      | nil => exact absurd rfl ht
      | cons b u => rfl
    · rw [List.dropWhile_cons_of_neg hp]

theorem stripQuotes_idem (l : List Char) :
    stripQuotes (stripQuotes l) = stripQuotes l := by
  unfold stripQuotes
  have h1 : ((l.dropWhile isQuoteC).reverse.dropWhile isQuoteC).reverse.dropWhile isQuoteC
      = ((l.dropWhile isQuoteC).reverse.dropWhile isQuoteC).reverse := by
    apply dropWhile_eq_self_of_head
    intro c hc
    rw [List.head?_reverse] at hc
    have hne : (l.dropWhile isQuoteC).reverse.dropWhile isQuoteC ≠ [] := by
      intro he
      rw [he] at hc
      simp at hc
    rw [getLast?_dropWhile _ _ hne, List.getLast?_reverse] at hc
    exact dropWhile_head_false _ _ hc
  rw [h1, List.reverse_reverse, dropWhile_idem]

theorem dropWhile_eq_self_of_all {α} {p : α → Bool} {l : List α}
    (h : ∀ c ∈ l, p c = false) : l.dropWhile p = l := by
  apply dropWhile_eq_self_of_head
  intro c hc
  cases l with
  | nil => simp at hc
  | cons a t =>
    simp only [List.head?_cons, Option.some.injEq] at hc
    exact hc ▸ h a (List.mem_cons_self a t)

theorem trimL_eq_self {l : List Char} (h : noSpaceB l = true) : trimL l = l := by
  have hall : ∀ c ∈ l, isSpaceC c = false := by
    intro c hc
    have := List.all_eq_true.mp h c hc
    simpa using this
  unfold trimL
  rw [dropWhile_eq_self_of_all hall]
  rw [dropWhile_eq_self_of_all (fun c hc => hall c (List.mem_reverse.mp hc))]
  exact List.reverse_reverse l

/-! ### Lemmas about the regex model -/

theorem matchCI_suffix : ∀ (kw l r : List Char), matchCI kw l = some r → r <:+ l := by
  intro kw
  induction kw with
  | nil =>
    intro l r h
    simp only [matchCI, Option.some.injEq] at h
    exact h ▸ List.suffix_refl l
  | cons p ps ih =>
    intro l r h
    cases l with
    | nil => simp [matchCI] at h
    | cons c cs =>
      simp only [matchCI] at h
      by_cases hc : lowerC c = p
      · rw [if_pos hc] at h
        exact (ih cs r h).trans (List.suffix_cons c cs)
      · rw [if_neg hc] at h
        exact absurd h (by simp)

theorem searchKW_none_of_noSpace (kw : List Char) :
    ∀ (l : List Char) (prev : Option Char), noSpaceB l = true →
      searchKW kw prev l = none := by
  intro l
  induction l with
  | nil => intro prev _; rfl
  | cons c cs ih =>
    intro prev h
    have hc : isSpaceC c = false := by
      have := List.all_eq_true.mp h c (List.mem_cons_self c cs)
      simpa using this
    have hcs : noSpaceB cs = true := by
      apply List.all_eq_true.mpr
      intro x hx
      exact List.all_eq_true.mp h x (List.mem_cons_of_mem c hx)
    show searchKW kw prev (c :: cs) = none
    unfold searchKW
    by_cases hb : boundaryOK prev = true
    · rw [if_pos hb]
      cases hm : matchCI kw (c :: cs) with
      | none => exact ih (some c) hcs
      | some rest =>
        have hga : groupAfter rest = none := by
          cases rest with
          | nil => rfl
          | cons d ds =>
            have hmem : d ∈ c :: cs :=
              (matchCI_suffix kw (c :: cs) (d :: ds) hm).subset
                (List.mem_cons_self d ds)
            have hd : isSpaceC d = false := by
              have := List.all_eq_true.mp h d hmem
              simpa using this
            simp [groupAfter, hd]
        show (match groupAfter rest with
              | some g => some g
              | none => searchKW kw (some c) cs) = none
        rw [hga]
        exact ih (some c) hcs
    · rw [if_neg hb]
      exact ih (some c) hcs

theorem startsWithL_subset : ∀ (p l : List Char), startsWithL p l = true →
    ∀ x ∈ p, x ∈ l := by
  intro p
  induction p with
  | nil => intro l _ x hx; simp at hx
  | cons a ps ih =>
    intro l h x hx
    cases l with
    | nil => simp [startsWithL] at h
    | cons c cs =>
      simp only [startsWithL, Bool.and_eq_true] at h
      obtain ⟨h1, h2⟩ := h
      have hac : a = c := by simpa using h1
      rcases List.mem_cons.mp hx with hx | hx
      · exact hx ▸ hac ▸ List.mem_cons_self c cs
      · exact List.mem_cons_of_mem c (ih cs h2 x hx)

theorem lowerC_eq_space {c : Char} (h : lowerC c = ' ') : c = ' ' := by
  unfold lowerC at h
  by_cases hc : (65 ≤ c.toNat && c.toNat ≤ 90) = true
  · rw [if_pos hc] at h
    exfalso
    rw [Bool.and_eq_true] at hc
    have h65 : 65 ≤ c.toNat := by simpa using hc.1
    have h90 : c.toNat ≤ 90 := by simpa using hc.2
    have hv : (c.toNat + 32).isValidChar := Or.inl (by omega)
    have ht : (Char.ofNat (c.toNat + 32)).toNat = 32 := by rw [h]; rfl
    rw [Char.ofNat, dif_pos hv] at ht
    have : c.toNat + 32 = 32 := by
      simpa [Char.ofNatAux, Char.toNat, UInt32.toNat] using ht
    omega
  · rw [if_neg hc] at h
    exact h

theorem stripHdr_eq_self {s : List Char} (h : noSpaceB s = true) :
    stripHdr s = s := by
  have key : ∀ pfx : List Char, (' ' : Char) ∈ pfx →
      startsWithL pfx (toLowerL s) = false := by
    intro pfx hsp
    by_contra hx
    rw [Bool.not_eq_false] at hx
    have hmem : (' ' : Char) ∈ toLowerL s := startsWithL_subset _ _ hx ' ' hsp
    rw [toLowerL, List.mem_map] at hmem
    obtain ⟨c, hc, hlc⟩ := hmem
    have hcsp : c = ' ' := lowerC_eq_space hlc
    have := List.all_eq_true.mp h c hc
    rw [hcsp] at this
    simp [isSpaceC] at this
  unfold stripHdr
  rw [key ("bearer ".data) (by decide), key ("token ".data) (by decide)]
  simp

theorem afterJson_stripQuotes (s : List Char) :
    stripQuotes (afterJson s) = afterJson s := by
  unfold afterJson
  cases hb : bearerSearch s with
  | some g => exact stripQuotes_idem _
  | none =>
    cases ht : tokenSearch s with
    | none => exact stripQuotes_idem _
    | some g =>
      cases hc : containsL authLit (toLowerL s) with
      | true => exact stripQuotes_idem _
      | false => exact stripQuotes_idem _

theorem stripQuotes_normalizeToken (raw : List Char) :
    stripQuotes (normalizeToken raw) = normalizeToken raw := by
  simp only [normalizeToken]
  by_cases h : trimL raw = []
  · rw [if_pos h]
    rfl
  · rw [if_neg h]
    exact afterJson_stripQuotes _

theorem afterJson_eq_self {t : List Char} (hns : noSpaceB t = true)
    (hq : stripQuotes t = t) : afterJson t = t := by
  have hb : bearerSearch t = none := searchKW_none_of_noSpace bearerKW t none hns
  have ht : tokenSearch t = none := searchKW_none_of_noSpace tokenKW t none hns
  unfold afterJson
  simp only [hb, ht]
  rw [stripHdr_eq_self hns, trimL_eq_self hns, hq]

/-! ### Claims about the token normalizer -/

/-- Claim C3 counterexample: the input `Bearer abc Bearer xyz123`
contains `Bearer xyz123`, yet `_normalize_token` returns `abc` — the
leftmost `Bearer <value>` match wins, so surrounding text does
matter. -/
theorem c3_counterexample :
    containsL ("Bearer xyz123".data) c3in = true ∧
    normalizeToken c3in = "abc".data ∧
    ("abc".data : List Char) ≠ "xyz123".data := by
  decide

/-- Claim C3 (amended): for every raw input whose trimmed text is not
JSON-object-shaped and whose FIRST case-insensitive `Bearer <value>`
occurrence has `<value>` equal to `xyz123` after trimming and
quote-stripping, `_normalize_token` returns exactly `xyz123`. -/
theorem c3_first_bearer_wins (s g : List Char)
    (h1 : jsonShapeB (trimL s) = false)
    (h2 : bearerSearch (trimL s) = some g)
    (h3 : stripQuotes (trimL g) = "xyz123".data) :
    normalizeToken s = "xyz123".data := by
  have hne : trimL s ≠ [] := by
    intro he
    rw [he] at h2
    simp [bearerSearch, searchKW] at h2
  have hjs : jsonStep (trimL s) = trimL s := by
    unfold jsonStep
    rw [h1]
    simp
  simp only [normalizeToken]
  rw [if_neg hne, hjs]
  unfold afterJson
  rw [h2]
  exact h3

/-- Claim C3 witness: a pasted header line. -/
theorem c3_witness :
    jsonShapeB (trimL c3win) = false ∧
    bearerSearch (trimL c3win) = some ("xyz123".data) ∧
    stripQuotes (trimL ("xyz123".data)) = "xyz123".data ∧
    normalizeToken c3win = "xyz123".data :=
  ⟨by decide, by decide, by decide,
    c3_first_bearer_wins c3win ("xyz123".data) (by decide) (by decide) (by decide)⟩

/-- Claim C4 counterexample: the NormalizedToken invariant fails by
construction — the empty JSON object `\x7b\x7d` is returned as a
wrapping JSON object, and the quoted input `\x27Token abc\x27` is
returned with a leading `Token ` header prefix. -/
theorem c4_counterexample :
    normalizeToken c4inA = [lbrace, rbrace] ∧
    startsWithL [lbrace] (normalizeToken c4inA) = true ∧
    endsWithL [rbrace] (normalizeToken c4inA) = true ∧
    normalizeToken c4inB = "Token abc".data ∧
    startsWithL ("Token ".data) (normalizeToken c4inB) = true := by
  decide

/-- Claim C4 (amended): of the NormalizedToken invariant, only the
quote part survives: every output of `_normalize_token` carries no
surrounding quote characters (stripping quotes from it is a no-op);
outputs may still start with a header prefix or be a wrapping JSON
object. -/
theorem c4_no_surrounding_quotes (raw : List Char) :
    stripQuotes (normalizeToken raw) = normalizeToken raw :=
  stripQuotes_normalizeToken raw

/-- Claim C5 counterexample: `_normalize_token` is not idempotent on
every input: on `\x27Token abc\x27` it yields `Token abc`, whose
re-normalization strips the now-exposed prefix and yields `abc`. -/
theorem c5_counterexample :
    normalizeToken (normalizeToken c5in) ≠ normalizeToken c5in ∧
    normalizeToken c5in = "Token abc".data ∧
    normalizeToken (normalizeToken c5in) = "abc".data := by
  decide

/-- Claim C5 (amended): `_normalize_token` is idempotent on every
input whose normalized form contains no whitespace and is not
JSON-object-shaped (in particular on every already-clean token). -/
theorem c5_idempotent_on_clean (x : List Char)
    (h1 : noSpaceB (normalizeToken x) = true)
    (h2 : jsonShapeB (normalizeToken x) = false) :
    normalizeToken (normalizeToken x) = normalizeToken x := by
  have hq := stripQuotes_normalizeToken x
  generalize hO : normalizeToken x = O at h1 h2 hq ⊢
  by_cases hnil : O = []
  · rw [hnil]
    rfl
  · have hjs : jsonStep O = O := by
      unfold jsonStep
      rw [h2]
      simp
    simp only [normalizeToken]
    rw [trimL_eq_self h1, if_neg hnil, hjs]
    exact afterJson_eq_self h1 hq

/-- Claim C5 witness: a plain token. -/
theorem c5_witness :
    noSpaceB (normalizeToken ("abc".data)) = true ∧
    jsonShapeB (normalizeToken ("abc".data)) = false ∧
    normalizeToken (normalizeToken ("abc".data)) = normalizeToken ("abc".data) :=
  ⟨by decide, by decide,
    c5_idempotent_on_clean ("abc".data) (by decide) (by decide)⟩

/-- Claim C6 counterexample: two JSON inputs that meet the claim's
conditions (valid JSON object, `access_token` mapped to a non-empty
string, no Bearer/Token regex pattern) but do not return the
`access_token` value `v` exactly: a `token` key takes precedence, and
a value with surrounding quotes is returned quote-stripped. -/
theorem c6_counterexample :
    (jsonParse (trimL c6inA)).isSome = true ∧
    jGet ((jsonParse (trimL c6inA)).getD []) kAccessKey = some (.jstr ['b']) ∧
    bearerSearch c6inA = none ∧
    tokenSearch c6inA = none ∧
    normalizeToken c6inA = ['a'] ∧
    (['a'] : List Char) ≠ ['b'] ∧
    (jsonParse (trimL c6inB)).isSome = true ∧
    jGet ((jsonParse (trimL c6inB)).getD []) kAccessKey = some (.jstr [sqC, 'b', sqC]) ∧
    bearerSearch c6inB = none ∧
    tokenSearch c6inB = none ∧
    normalizeToken c6inB = ['b'] ∧
    (['b'] : List Char) ≠ [sqC, 'b', sqC] := by
  decide

/-- Claim C6 (amended): for a JSON-shaped input that parses to an
object with no usable `token` entry and with `access_token` mapped to
a non-empty string `v` that contains no whitespace and no surrounding
quote characters, `_normalize_token` returns exactly `v`. -/
theorem c6_json_access_token (s v : List Char) (obj : List (List Char × JVal))
    (hshape : jsonShapeB (trimL s) = true)
    (hparse : jsonParse (trimL s) = some obj)
    (htok : usableVal (jGet obj kTokenKey) = none)
    (hacc : jGet obj kAccessKey = some (.jstr v))
    (hne : v ≠ [])
    (hns : noSpaceB v = true)
    (hq : stripQuotes v = v) :
    normalizeToken s = v := by
  have hs_ne : trimL s ≠ [] := by
    intro he
    rw [he] at hshape
    simp [jsonShapeB, startsWithL] at hshape
  have hjs : jsonStep (trimL s) = v := by
    unfold jsonStep
    rw [hshape]
    simp only [if_true]
    rw [hparse]
    have hek : extractKey obj = some v := by
      unfold extractKey
      rw [htok, hacc]
      simp only [usableVal]
      rw [trimL_eq_self hns]
      rw [if_neg hne]
    show (match extractKey obj with
          | some w => w
          | none => trimL s) = v
    rw [hek]
  simp only [normalizeToken]
  rw [if_neg hs_ne, hjs]
  exact afterJson_eq_self hns hq

/-- Claim C6 witness: a clean `access_token`-only JSON object, and one
whose `token` entry is present but unusable (blank string). -/
theorem c6_witness :
    jsonShapeB (trimL c6win) = true ∧
    jsonParse (trimL c6win) = some [(kAccessKey, .jstr ("tok123".data))] ∧
    normalizeToken c6win = "tok123".data ∧
    jsonParse (trimL c6win2) =
      some [(kTokenKey, .jstr []), (kAccessKey, .jstr ("tok456".data))] ∧
    normalizeToken c6win2 = "tok456".data :=
  ⟨by decide, by decide,
    c6_json_access_token c6win ("tok123".data)
      [(kAccessKey, .jstr ("tok123".data))]
      (by decide) (by decide) (by decide) (by decide) (by decide) (by decide)
      (by decide),
    by decide,
    c6_json_access_token c6win2 ("tok456".data)
      [(kTokenKey, .jstr []), (kAccessKey, .jstr ("tok456".data))]
      (by decide) (by decide) (by decide) (by decide) (by decide) (by decide)
      (by decide)⟩


/-! ### Lemmas about the orchestrator model -/

theorem passwordFlow_mem (env : Env) :
    Event.getAccountsCall ∉ (passwordFlow env).1 ∧
    Event.deleteTokenCall ∉ (passwordFlow env).1 := by
  obtain ⟨ld, dt, hm, pr, ch, rt, lg, mf, ss, ga, mm, sa⟩ := env
  cases lg with
  | ok => simp [passwordFlow]
  | fail e => simp [passwordFlow]
  | requireMFA =>
    cases mf with
    | error e => simp [passwordFlow]
    | ok u =>
      cases ss with
      | error e => simp [passwordFlow]
      | ok u2 => simp [passwordFlow]

theorem tokenFlow_mem (env : Env) :
    Event.getAccountsCall ∉ (tokenFlow env).1 ∧
    Event.deleteTokenCall ∉ (tokenFlow env).1 := by
  unfold tokenFlow
  by_cases h : normalizeToken env.rawTokenInput = []
  · rw [if_pos h]
    simp
  · rw [if_neg h]
    simp

theorem afterAuth_trace (env : Env) (evs : List Event) (m : AuthMethod) :
    ∃ rest, (afterAuth env evs m).1 = evs ++ rest ∧
      Event.saveSessionCall ∉ rest ∧
      rest.count Event.getAccountsCall = 1 ∧
      Event.getAccountsCall ∈ rest ∧
      ∀ e, (afterAuth env evs m).2 ≠ Outcome.uncaughtErr e := by
  obtain ⟨ld, dt, hm, pr, ch, rt, lg, mf, ss, ga, mm, sa⟩ := env
  simp only [afterAuth, validateStep, publishStep, cleanupEvents]
  cases ga with
  | error e =>
    cases m with
    | password =>
      cases mm with
      | false =>
        refine ⟨[Event.getAccountsCall], by simp, by decide, by decide, by decide, ?_⟩
        intro e2 h2
        simp at h2
      | true =>
        refine ⟨[Event.getAccountsCall, Event.rmtreeCall], by simp, by decide, by decide,
          by decide, ?_⟩
        intro e2 h2
        simp at h2
    | token =>
      refine ⟨[Event.getAccountsCall], by simp, by decide, by decide, by decide, ?_⟩
      intro e2 h2
      simp at h2
  | ok v =>
    cases htc : testConnection v with
    | error e =>
      cases m with
      | password =>
        cases mm with
        | false =>
          refine ⟨[Event.getAccountsCall], by simp [htc], by decide, by decide, by decide, ?_⟩
          intro e2 h2
          simp [htc] at h2
        | true =>
          refine ⟨[Event.getAccountsCall, Event.rmtreeCall], by simp [htc], by decide, by decide,
            by decide, ?_⟩
          intro e2 h2
          simp [htc] at h2
      | token =>
        refine ⟨[Event.getAccountsCall], by simp [htc], by decide, by decide, by decide, ?_⟩
        intro e2 h2
        simp [htc] at h2
    | ok n =>
      cases sa with
      | error e =>
        refine ⟨[Event.getAccountsCall, Event.saveAuthSessionCall], by simp [htc], by decide,
          by decide, by decide, ?_⟩
        intro e2 h2
        simp [htc] at h2
      | ok u =>
        refine ⟨[Event.getAccountsCall, Event.saveAuthSessionCall], by simp [htc], by decide,
          by decide, by decide, ?_⟩
        intro e2 h2
        simp [htc] at h2

theorem mainTry_shape (env : Env) :
    (∃ t, (mainTry env).1 = Event.deleteTokenCall :: t) ∧
    (∀ e, (mainTry env).2 ≠ Outcome.uncaughtErr e) ∧
    (mainTry env).1.count Event.getAccountsCall ≤ 1 := by
  unfold mainTry
  cases hdt : env.deleteTokenR with
  | error e =>
    refine ⟨⟨[], by simp [hdt]⟩, ?_, by simp [hdt]⟩
    intro e2 h2
    simp [hdt] at h2
  | ok u =>
    by_cases hp : proceedCheck env = true
    · cases hch : chooseAuthMethod env.choiceInput with
      | password =>
        cases hpf : passwordFlow env with
        | mk evA r =>
          have hga : Event.getAccountsCall ∉ evA := by
            have := (passwordFlow_mem env).1
            rw [hpf] at this
            exact this
          have h0 : evA.count Event.getAccountsCall = 0 := List.count_eq_zero.mpr hga
          cases r with
          | error e2 =>
            refine ⟨⟨evA, by simp [hdt, hp, hch, hpf]⟩, ?_, ?_⟩
            · intro e3 h3
              simp [hdt, hp, hch, hpf] at h3
            · simp [hdt, hp, hch, hpf, List.count_cons, h0]
          | ok u2 =>
            obtain ⟨rest, htr, hsave, hcnt, hmem, hout⟩ :=
              afterAuth_trace env (Event.deleteTokenCall :: evA) .password
            refine ⟨⟨evA ++ rest, by simp [hdt, hp, hch, hpf, htr]⟩, ?_, ?_⟩
            · intro e3 h3
              simp [hdt, hp, hch, hpf] at h3
              exact hout e3 h3
            · simp [hdt, hp, hch, hpf, htr, List.count_append, List.count_cons, hcnt, h0]
      | token =>
        cases htf : tokenFlow env with
        | mk evA r =>
          have hga : Event.getAccountsCall ∉ evA := by
            have := (tokenFlow_mem env).1
            rw [htf] at this
            exact this
          have h0 : evA.count Event.getAccountsCall = 0 := List.count_eq_zero.mpr hga
          cases r with
          | noToken =>
            refine ⟨⟨evA, by simp [hdt, hp, hch, htf]⟩, ?_, ?_⟩
            · intro e3 h3
              simp [hdt, hp, hch, htf] at h3
            · simp [hdt, hp, hch, htf, List.count_cons, h0]
          | built =>
            obtain ⟨rest, htr, hsave, hcnt, hmem, hout⟩ :=
              afterAuth_trace env (Event.deleteTokenCall :: evA) .token
            refine ⟨⟨evA ++ rest, by simp [hdt, hp, hch, htf, htr]⟩, ?_, ?_⟩
            · intro e3 h3
              simp [hdt, hp, hch, htf] at h3
              exact hout e3 h3
            · simp [hdt, hp, hch, htf, htr, List.count_append, List.count_cons, hcnt, h0]
    · refine ⟨⟨[], by simp [hdt, hp]⟩, ?_, by simp [hdt, hp]⟩
      intro e2 h2
      simp [hdt, hp] at h2

theorem clearedBefore_true : ∀ l : List Event, clearedBefore true l = true := by
  intro l
  induction l with
  | nil => rfl
  | cons e rest ih =>
    unfold clearedBefore
    simp [ih]

/-! ### Claims about the orchestrator -/

/-- Claim C1 counterexample: in a run whose first login succeeds
directly, the handle is passed to validation with zero explicit
`save_session` calls — the explicit save exists only in the MFA
branch, so "on success of either phase ... exactly once" fails. -/
theorem c1_counterexample :
    (mainRun envC1Direct).1.count Event.saveSessionCall = 0 ∧
    Event.getAccountsCall ∈ (mainRun envC1Direct).1 := by
  decide

/-- Claim C1 (amended): only the MFA phase triggers the explicit
`save_session` call: in the MFA scenario exactly one explicit save is
made on the same client, after the exchange and before validation; a
directly-successful login makes no explicit save call (persistence is
requested only via the `save_session=True` login flag). -/
theorem c1_explicit_save (env : Env)
    (h0 : env.loadDotenvR = Except.ok ())
    (h1 : env.deleteTokenR = Except.ok ())
    (h2 : proceedCheck env = true)
    (h3 : chooseAuthMethod env.choiceInput = AuthMethod.password) :
    ((env.loginR = LoginRes.requireMFA ∧ env.mfaR = Except.ok () ∧
        env.saveSessionR = Except.ok ()) →
      ∃ rest, (mainRun env).1 =
          [Event.deleteTokenCall, Event.constructClient false, Event.loginCall,
            Event.mfaCall, Event.saveSessionCall] ++ rest ∧
        Event.saveSessionCall ∉ rest ∧ Event.getAccountsCall ∈ rest) ∧
    (env.loginR = LoginRes.ok →
      (mainRun env).1.count Event.saveSessionCall = 0 ∧
      Event.getAccountsCall ∈ (mainRun env).1) := by
  have hrun : mainRun env = mainTry env := by
    unfold mainRun
    rw [h0]
  constructor
  · rintro ⟨hl, hmf, hss⟩
    have hpf : passwordFlow env =
        ([Event.constructClient false, Event.loginCall, Event.mfaCall,
          Event.saveSessionCall], Except.ok ()) := by
      unfold passwordFlow
      rw [hl, hmf, hss]
    obtain ⟨rest, htr, hsave, hcnt, hmem, hout⟩ :=
      afterAuth_trace env [Event.deleteTokenCall, Event.constructClient false,
        Event.loginCall, Event.mfaCall, Event.saveSessionCall] .password
    have hmt : mainTry env = afterAuth env
        [Event.deleteTokenCall, Event.constructClient false, Event.loginCall,
          Event.mfaCall, Event.saveSessionCall] .password := by
      simp [mainTry, h1, h2, h3, hpf]
    exact ⟨rest, by rw [hrun, hmt, htr], hsave, hmem⟩
  · intro hl
    have hpf : passwordFlow env =
        ([Event.constructClient false, Event.loginCall], Except.ok ()) := by
      unfold passwordFlow
      rw [hl]
    obtain ⟨rest, htr, hsave, hcnt, hmem, hout⟩ :=
      afterAuth_trace env [Event.deleteTokenCall, Event.constructClient false,
        Event.loginCall] .password
    have hmt : mainTry env = afterAuth env
        [Event.deleteTokenCall, Event.constructClient false, Event.loginCall]
        .password := by
      simp [mainTry, h1, h2, h3, hpf]
    constructor
    · rw [hrun, hmt, htr, List.count_append, List.count_eq_zero.mpr hsave]
      decide
    · rw [hrun, hmt, htr]
      exact List.mem_append.mpr (Or.inr hmem)

/-- Claim C1 witness: the MFA scenario makes exactly the one explicit
save before validation; the direct scenario makes none. -/
theorem c1_witness :
    (∃ rest, (mainRun envC1Mfa).1 =
        [Event.deleteTokenCall, Event.constructClient false, Event.loginCall,
          Event.mfaCall, Event.saveSessionCall] ++ rest ∧
      Event.saveSessionCall ∉ rest ∧ Event.getAccountsCall ∈ rest) ∧
    (mainRun envC1Direct).1.count Event.saveSessionCall = 0 ∧
    Event.getAccountsCall ∈ (mainRun envC1Direct).1 :=
  ⟨(c1_explicit_save envC1Mfa rfl rfl (by decide) (by decide)).1 ⟨rfl, rfl, rfl⟩,
    (c1_explicit_save envC1Direct rfl rfl (by decide) (by decide)).2 rfl⟩

/-- Claim C2 counterexample: an exception raised by `load_dotenv()`
(line 109, before the `try` block) escapes `main` uncaught, so not
every step of the flow is covered by the top-level handler. -/
theorem c2_counterexample :
    (mainRun envC2Fail).2 = Outcome.uncaughtErr ("boom".data) ∧
    (mainRun envC2Fail).1 = [] :=
  ⟨rfl, rfl⟩

/-- Claim C2 (amended): every exception raised inside the
orchestrator's `try` block (from the session-clearing step onward) is
caught by the top-level handler and converted into a terminal outcome;
but an exception from environment loading, which runs before the
`try`, propagates past the run boundary. -/
theorem c2_caught_within_try (env : Env) (e : List Char)
    (h : env.loadDotenvR = Except.ok ()) :
    (mainRun env).2 ≠ Outcome.uncaughtErr e := by
  have hrun : mainRun env = mainTry env := by
    unfold mainRun
    rw [h]
  rw [hrun]
  exact (mainTry_shape env).2.1 e

/-- Claim C2 witness. -/
theorem c2_witness : (mainRun envC2Ok).2 ≠ Outcome.uncaughtErr ("boom".data) :=
  c2_caught_within_try envC2Ok ("boom".data) rfl

/-- Claim C7 (confirmed): the connection validator succeeds exactly on
truthy dict responses whose `accounts` entry has a length, returning
that length; zero accounts is a valid success; a bare number fails; it
issues exactly one `get_accounts()` call per invocation and at most
one per run. -/
theorem c7_connection_validator :
    (∀ v n, testConnection v = Except.ok n ↔
      (expectedShape v = true ∧ accountCountOf v = some n)) ∧
    exOk (testConnection (Value.vint 7)) = false ∧
    testConnection (Value.vdict [(accountsKey, Value.vlist [])]) = Except.ok 0 ∧
    (∀ env, (validateStep env).1 = [Event.getAccountsCall]) ∧
    (∀ env, (mainRun env).1.count Event.getAccountsCall ≤ 1) := by
  refine ⟨?_, rfl, rfl, ?_, ?_⟩
  · intro v n
    unfold testConnection expectedShape
    cases h : (truthy v && isDictV v) with
    | false => simp [h]
    | true =>
      cases hac : accountCountOf v with
      | none => simp [h, hac]
      | some m => simp [h, hac, eq_comm]
  · intro env
    cases hga : env.getAccountsR with
    | error e => simp [validateStep, hga]
    | ok v => simp [validateStep, hga]
  · intro env
    unfold mainRun
    cases hld : env.loadDotenvR with
    | error e => simp [hld]
    | ok u =>
      simp only [hld]
      exact (mainTry_shape env).2.2

/-- Claim C8 (confirmed): a token-method run whose normalized token is
empty ends as `noToken` with a trace containing only the
session-clearing call — no client construction and no network call. -/
theorem c8_empty_token_terminal (env : Env)
    (h0 : env.loadDotenvR = Except.ok ())
    (h1 : env.deleteTokenR = Except.ok ())
    (h2 : proceedCheck env = true)
    (h3 : chooseAuthMethod env.choiceInput = AuthMethod.token)
    (h4 : normalizeToken env.rawTokenInput = []) :
    (mainRun env).2 = Outcome.noToken ∧
    (mainRun env).1 = [Event.deleteTokenCall] := by
  have hrun : mainRun env = mainTry env := by
    unfold mainRun
    rw [h0]
  have htf : tokenFlow env = ([], TokenRes.noToken) := by
    unfold tokenFlow
    rw [if_pos h4]
  have hmt : mainTry env = ([Event.deleteTokenCall], Outcome.noToken) := by
    simp [mainTry, h1, h2, h3, htf]
  rw [hrun, hmt]
  exact ⟨rfl, rfl⟩

/-- Claim C8 witness: blank pasted token. -/
theorem c8_witness :
    (mainRun envC8).2 = Outcome.noToken ∧
    (mainRun envC8).1 = [Event.deleteTokenCall] :=
  c8_empty_token_terminal envC8 rfl rfl (by decide) (by decide) (by decide)

/-- Claim C9 (confirmed): when authentication and validation succeed
but the keyring save raises, the run completes normally (nothing
re-raised), reports the authentication outcome with the account count
and only the persistence flag failed, performs the save attempt, and
never rolls back: the one session-clearing call at the start is the
only `delete_token` in the trace. -/
theorem c9_persist_failure_nonfatal (env : Env) (v : Value) (n : Nat) (err : List Char)
    (h0 : env.loadDotenvR = Except.ok ())
    (h1 : env.deleteTokenR = Except.ok ())
    (h2 : proceedCheck env = true)
    (hauth : (chooseAuthMethod env.choiceInput = AuthMethod.password ∧
        (passwordFlow env).2 = Except.ok ()) ∨
      (chooseAuthMethod env.choiceInput = AuthMethod.token ∧
        (tokenFlow env).2 = TokenRes.built))
    (hga : env.getAccountsR = Except.ok v)
    (htc : testConnection v = Except.ok n)
    (hsa : env.saveAuthR = Except.error err) :
    (mainRun env).2 = Outcome.completed false n ∧
    (mainRun env).1.count Event.deleteTokenCall = 1 ∧
    Event.saveAuthSessionCall ∈ (mainRun env).1 := by
  have hrun : mainRun env = mainTry env := by
    unfold mainRun
    rw [h0]
  have haft : ∀ evs m, afterAuth env evs m =
      (evs ++ [Event.getAccountsCall, Event.saveAuthSessionCall],
        Outcome.completed false n) := by
    intro evs m
    simp [afterAuth, validateStep, publishStep, hga, htc, hsa]
  rcases hauth with ⟨hch, hok⟩ | ⟨hch, hok⟩
  · cases hpf : passwordFlow env with
    | mk evA r =>
      rw [hpf] at hok
      have hr : r = Except.ok () := hok
      subst hr
      have hdt2 : Event.deleteTokenCall ∉ evA := by
        have := (passwordFlow_mem env).2
        rw [hpf] at this
        exact this
      have hmt : mainTry env =
          afterAuth env (Event.deleteTokenCall :: evA) AuthMethod.password := by
        simp [mainTry, h1, h2, hch, hpf]
      rw [hrun, hmt, haft]
      refine ⟨rfl, ?_, by simp⟩
      simp [List.count_cons, List.count_append, List.count_eq_zero.mpr hdt2]
  · cases htf : tokenFlow env with
    | mk evA r =>
      rw [htf] at hok
      have hr : r = TokenRes.built := hok
      subst hr
      have hdt2 : Event.deleteTokenCall ∉ evA := by
        have := (tokenFlow_mem env).2
        rw [htf] at this
        exact this
      have hmt : mainTry env =
          afterAuth env (Event.deleteTokenCall :: evA) AuthMethod.token := by
        simp [mainTry, h1, h2, hch, htf]
      rw [hrun, hmt, haft]
      refine ⟨rfl, ?_, by simp⟩
      simp [List.count_cons, List.count_append, List.count_eq_zero.mpr hdt2]

/-- Claim C9 witness: a token run over two accounts whose keyring save
fails. -/
theorem c9_witness :
    (mainRun envC9).2 = Outcome.completed false 2 ∧
    (mainRun envC9).1.count Event.deleteTokenCall = 1 ∧
    Event.saveAuthSessionCall ∈ (mainRun envC9).1 :=
  c9_persist_failure_nonfatal envC9 acctsTwo 2 ("keyring denied".data) rfl rfl
    (by decide) (Or.inr ⟨by decide, by decide⟩) rfl rfl rfl

/-- Claim C10 (confirmed): in every run, any authentication event
(login, MFA exchange, or client construction) in the trace is preceded
by the session-clearing `delete_token` call. -/
theorem c10_clear_before_auth (env : Env) :
    clearedBefore false (mainRun env).1 = true := by
  unfold mainRun
  cases hld : env.loadDotenvR with
  | error e => simp [hld, clearedBefore]
  | ok u =>
    obtain ⟨t, ht⟩ := (mainTry_shape env).1
    simp only [hld]
    rw [ht]
    unfold clearedBefore
    simp [isAuthEvent, clearedBefore_true]

end MonarchLogin
